import Mathlib

set_option maxRecDepth 8000

/-!
Shallow embedding of the codex-eyes wrapper (`src/wrapper/codex-eyes.js`) and
the MCP image-request endpoint (`src/mcp/image-request-mcp.js`).

JS strings are modelled as `List Char` (sequences of code units).  The wrapper
runs on a POSIX platform, so `path.sep = '/'` and the `node:path` functions
used by the sources (`isAbsolute`, `resolve`, `extname`, `relative`) are
modelled with their POSIX semantics.  The file system is modelled as the list
of paths for which `fs.existsSync` returns true.
-/

namespace CodexEyes

/-- `ALLOWED_EXTENSIONS` from both source files:
`new Set([".png", ".jpg", ".jpeg", ".webp"])`. -/
def ALLOWED_EXTENSIONS : List (List Char) :=
  [".png".data, ".jpg".data, ".jpeg".data, ".webp".data]

/-- `WAIT_MARKER = "<<WAITING_FOR_IMAGE>>"` from the wrapper. -/
def WAIT_MARKER : List Char := "<<WAITING_FOR_IMAGE>>".data

/-- `MAX_RESTARTS = 5` from the wrapper. -/
def MAX_RESTARTS : Nat := 5

/-- `RESTART_WINDOW_MS = 5 * 60 * 1000` from the wrapper. -/
def RESTART_WINDOW_MS : Int := 5 * 60 * 1000

/-- POSIX `path.isAbsolute`: nonempty and the first code unit is `/`. -/
def isAbsolutePath (p : List Char) : Bool :=
  match p with
  | [] => false
  | c :: _ => c = '/'

/-- Split a list on every occurrence of the character `sep`
(the semantics of JS `String.prototype.split` with a one-char separator,
and of splitting a POSIX path on `/`).  Always returns a nonempty list. -/
def splitOnChar (sep : Char) (l : List Char) : List (List Char) :=
  l.foldr
    (fun x r =>
      match r with
      | [] => [[x]]
      | y :: ys => if x = sep then [] :: y :: ys else (x :: y) :: ys)
    [[]]

/-- One step of POSIX path normalization over a stack of path segments:
empty and `.` segments are dropped, `..` pops the previous segment (and is
dropped at the root, as in `path.resolve` for absolute paths), any other
segment is pushed. -/
def normStep (stack : List (List Char)) (seg : List Char) : List (List Char) :=
  if seg = [] ∨ seg = ".".data then stack
  else if seg = "..".data then stack.dropLast
  else stack ++ [seg]

/-- Join path segments with `/` between them. -/
def joinSegs : List (List Char) → List Char
  | [] => []
  | [s] => s
  | s :: rest => s ++ '/' :: joinSegs rest

/-- POSIX `path.resolve(root, p)` for an absolute `root`: if `p` is absolute
it is normalized on its own, otherwise `root ++ "/" ++ p` is normalized.
The result is `/` followed by the normalized segments. -/
def resolvePath (root p : List Char) : List Char :=
  let joined := if isAbsolutePath p then p else root ++ '/' :: p
  let segs := (splitOnChar '/' joined).foldl normStep []
  '/' :: joinSegs segs

/-- `rootWithSep` from both validators:
`repoRoot.endsWith(path.sep) ? repoRoot : repoRoot + path.sep`. -/
def rootWithSep (root : List Char) : List Char :=
  if root.getLast? = some '/' then root else root ++ ['/']

/-- The extension of a basename, following node's `path.extname` rules on the
part after the last separator: the suffix from the last `.`, except that a
basename with no dot, a basename whose only relevant dot is its first
character, and the basename `..` have extension `""`. -/
def extOfBase (b : List Char) : List Char :=
  match b.reverse.findIdx? (fun c => c = '.') with
  | none => []
  | some j =>
    let i := b.length - 1 - j
    if i = 0 ∨ b = "..".data then [] else b.drop i

/-- POSIX `path.extname`: trailing slashes are ignored, the basename is the
run of non-slash characters before them, and its extension is taken per
`extOfBase`. -/
def extname (p : List Char) : List Char :=
  let base := ((p.reverse.dropWhile (fun c => c = '/')).takeWhile
    (fun c => c ≠ '/')).reverse
  extOfBase base

/-- Count the shared leading segments of two segment lists
(used by POSIX `path.relative`). -/
def countCommon : List (List Char) → List (List Char) → Nat
  | a :: as, b :: bs => if a = b then countCommon as bs + 1 else 0
  | _, _ => 0

/-- POSIX `path.relative(src, dst)` for already-resolved absolute paths:
drop the common leading segments, go up with `..` for what remains of `src`,
then down into what remains of `dst`.  In the validators it is only applied
with `dst` equal to or beneath `src`, where it returns the suffix of `dst`
after `src` (or `""` when equal). -/
def relativePath (src dst : List Char) : List Char :=
  let fSegs := (splitOnChar '/' src).filter (fun s => !s.isEmpty)
  let tSegs := (splitOnChar '/' dst).filter (fun s => !s.isEmpty)
  let common := countCommon fSegs tSegs
  joinSegs (List.replicate (fSegs.length - common) "..".data ++ tSegs.drop common)

/-- JS whitespace for `String.prototype.trim` (WhiteSpace and LineTerminator
code points). -/
def jsIsWhitespace (c : Char) : Bool :=
  let n := c.toNat
  decide (n = 0x9 ∨ n = 0xA ∨ n = 0xB ∨ n = 0xC ∨ n = 0xD ∨ n = 0x20 ∨
    n = 0xA0 ∨ n = 0x1680 ∨ (0x2000 ≤ n ∧ n ≤ 0x200A) ∨ n = 0x2028 ∨
    n = 0x2029 ∨ n = 0x202F ∨ n = 0x205F ∨ n = 0x3000 ∨ n = 0xFEFF)

/-- JS `String.prototype.trim`. -/
def jsTrim (l : List Char) : List Char :=
  ((l.dropWhile jsIsWhitespace).reverse.dropWhile jsIsWhitespace).reverse

/-- The distinct rejection reasons of the two validators, §4.4 / §7 of the
spec: non-string or empty input (MCP only), absolute path, traversal outside
the root, extension outside the allow-list, missing file. -/
inductive PathError where
  | notAString
  | absolutePath
  | traversal
  | unsupportedExtension
  | missingFile
deriving DecidableEq, Repr

/-- `resolveSafeImagePath` from `src/wrapper/codex-eyes.js` (lines 55-73),
with the repository root and the set of existing files as parameters. -/
def resolveSafeImagePath (root : List Char) (fsExists : List (List Char))
    (requestedPath : List Char) : Except PathError (List Char) :=
  if isAbsolutePath requestedPath then .error .absolutePath
  else
    let resolved := resolvePath root requestedPath
    if ¬(resolved = root ∨ (rootWithSep root).isPrefixOf resolved) then
      .error .traversal
    else
      let ext := (extname resolved).map Char.toLower
      if ¬ ext ∈ ALLOWED_EXTENSIONS then .error .unsupportedExtension
      else if ¬ resolved ∈ fsExists then .error .missingFile
      else
        let rel := relativePath root resolved
        .ok (if rel.head? = some '.' then rel else '.' :: '/' :: rel)

/-- `toSafeRepoRelativePath` from `src/mcp/image-request-mcp.js`
(lines 33-57).  Its body after the non-empty-string guard is identical to
`resolveSafeImagePath`; non-string input is not representable in this
embedding of JS strings, so only the `requestPath.trim() === ""` half of the
first guard appears. -/
def toSafeRepoRelativePath (root : List Char) (fsExists : List (List Char))
    (requestPath : List Char) : Except PathError (List Char) :=
  if jsTrim requestPath = [] then .error .notAString
  else if isAbsolutePath requestPath then .error .absolutePath
  else
    let resolved := resolvePath root requestPath
    if ¬(resolved = root ∨ (rootWithSep root).isPrefixOf resolved) then
      .error .traversal
    else
      let ext := (extname resolved).map Char.toLower
      if ¬ ext ∈ ALLOWED_EXTENSIONS then .error .unsupportedExtension
      else if ¬ resolved ∈ fsExists then .error .missingFile
      else
        let rel := relativePath root resolved
        .ok (if rel.head? = some '.' then rel else '.' :: '/' :: rel)

/-! ### JSON values and `JSON.parse`

`getLastRequestedPath` calls `JSON.parse` on each log line; the parser below
models strict JSON as accepted by `JSON.parse`: objects (duplicate keys keep
the last occurrence), arrays, strings with the JSON escapes, numbers, the
literals `true`/`false`/`null`, and insignificant whitespace. -/

/-- A parsed JSON value.  Number literals keep their consumed characters;
their numeric value is never needed by the wrapper. -/
inductive Json where
  | jnull
  | jbool (b : Bool)
  | jnum (lit : List Char)
  | jstr (s : List Char)
  | jarr (elems : List Json)
  | jobj (members : List (List Char × Json))

/-- JSON insignificant whitespace. -/
def jsonWs (c : Char) : Bool := c = ' ' ∨ c = '\t' ∨ c = '\n' ∨ c = '\r'

/-- Skip JSON whitespace. -/
def skipWs (l : List Char) : List Char := l.dropWhile jsonWs

/-- Value of a hex digit, if any. -/
def hexVal (c : Char) : Option Nat :=
  if '0' ≤ c ∧ c ≤ '9' then some (c.toNat - '0'.toNat)
  else if 'a' ≤ c ∧ c ≤ 'f' then some (c.toNat - 'a'.toNat + 10)
  else if 'A' ≤ c ∧ c ≤ 'F' then some (c.toNat - 'A'.toNat + 10)
  else none

/-- Parse the rest of a JSON string after the opening quote; returns the
decoded content and the input after the closing quote.  Raw control
characters are rejected, escapes are decoded. -/
def parseStringRest : List Char → Option (List Char × List Char)
  | [] => none
  | '"' :: r => some ([], r)
  | '\\' :: r =>
    match r with
    | '"' :: r2 => (parseStringRest r2).map (fun p => ('"' :: p.1, p.2))
    | '\\' :: r2 => (parseStringRest r2).map (fun p => ('\\' :: p.1, p.2))
    | '/' :: r2 => (parseStringRest r2).map (fun p => ('/' :: p.1, p.2))
    | 'b' :: r2 => (parseStringRest r2).map (fun p => ('\x08' :: p.1, p.2))
    | 'f' :: r2 => (parseStringRest r2).map (fun p => ('\x0C' :: p.1, p.2))
    | 'n' :: r2 => (parseStringRest r2).map (fun p => ('\n' :: p.1, p.2))
    | 'r' :: r2 => (parseStringRest r2).map (fun p => ('\r' :: p.1, p.2))
    | 't' :: r2 => (parseStringRest r2).map (fun p => ('\t' :: p.1, p.2))
    | 'u' :: h1 :: h2 :: h3 :: h4 :: r2 =>
      match hexVal h1, hexVal h2, hexVal h3, hexVal h4 with
      | some a, some b, some c, some d =>
        (parseStringRest r2).map
          (fun p => (Char.ofNat (((a * 16 + b) * 16 + c) * 16 + d) :: p.1, p.2))
      | _, _, _, _ => none
    | _ => none
  | c :: r =>
    if c.toNat < 0x20 then none
    else (parseStringRest r).map (fun p => (c :: p.1, p.2))

/-- Longest digit run at the front of the input, and the rest. -/
def takeDigits (l : List Char) : List Char × List Char :=
  (l.takeWhile Char.isDigit, l.dropWhile Char.isDigit)

/-- JSON integer part: `0` or a nonzero digit followed by digits. -/
def parseIntPart (l : List Char) : Option (List Char × List Char) :=
  match l with
  | '0' :: r => some (['0'], r)
  | c :: r =>
    if c.isDigit then
      let (ds, r2) := takeDigits r
      some (c :: ds, r2)
    else none
  | [] => none

/-- Optional JSON fraction part `.digits`. -/
def parseFracOpt (l : List Char) : Option (List Char × List Char) :=
  match l with
  | '.' :: r =>
    let (ds, r2) := takeDigits r
    if ds = [] then none else some ('.' :: ds, r2)
  | _ => some ([], l)

/-- Optional JSON exponent part `[eE][+-]?digits`. -/
def parseExpOpt (l : List Char) : Option (List Char × List Char) :=
  match l with
  | c :: r =>
    if c = 'e' ∨ c = 'E' then
      match r with
      | s :: r2 =>
        if s = '+' ∨ s = '-' then
          let (ds, r3) := takeDigits r2
          if ds = [] then none else some (c :: s :: ds, r3)
        else
          let (ds, r3) := takeDigits r
          if ds = [] then none else some (c :: ds, r3)
      | [] => none
    else some ([], l)
  | [] => some ([], [])

/-- JSON number literal `-?int frac? exp?`; returns the consumed characters
and the rest. -/
def parseNumber (l : List Char) : Option (List Char × List Char) :=
  let (sgn, l1) := match l with
    | '-' :: r => (['-'], r)
    | _ => ([], l)
  match parseIntPart l1 with
  | none => none
  | some (ip, l2) =>
    match parseFracOpt l2 with
    | none => none
    | some (fp, l3) =>
      match parseExpOpt l3 with
      | none => none
      | some (ep, l4) => some (sgn ++ ip ++ fp ++ ep, l4)

/-- What the recursive-descent step is currently parsing: a single value, a
comma-separated run of array elements up to `]`, or a run of object members
up to `}`. -/
inductive PMode where
  | val
  | elems
  | members

/-- The result of one recursive-descent step, per mode. -/
inductive PRes where
  | v (j : Json)
  | vs (elems : List Json)
  | ms (members : List (List Char × Json))

/-- Fuelled recursive-descent JSON parser (one function so that recursion is
structural on the fuel).  In mode `val` it parses one JSON value after
optional whitespace; in mode `elems`/`members` it parses the inside of a
nonempty array/object up to the closing bracket. -/
def parseStep : Nat → PMode → List Char → Option (PRes × List Char)
  | 0, _, _ => none
  | f + 1, .val, input =>
    match skipWs input with
    | 'n' :: 'u' :: 'l' :: 'l' :: r => some (.v .jnull, r)
    | 't' :: 'r' :: 'u' :: 'e' :: r => some (.v (.jbool true), r)
    | 'f' :: 'a' :: 'l' :: 's' :: 'e' :: r => some (.v (.jbool false), r)
    | '"' :: r => (parseStringRest r).map (fun p => (.v (.jstr p.1), p.2))
    | '[' :: r =>
      match skipWs r with
      | ']' :: r2 => some (.v (.jarr []), r2)
      | r2 =>
        match parseStep f .elems r2 with
        | some (.vs es, r3) => some (.v (.jarr es), r3)
        | _ => none
    | '{' :: r =>
      match skipWs r with
      | '}' :: r2 => some (.v (.jobj []), r2)
      | r2 =>
        match parseStep f .members r2 with
        | some (.ms ms, r3) => some (.v (.jobj ms), r3)
        | _ => none
    | l => (parseNumber l).map (fun p => (.v (.jnum p.1), p.2))
  | f + 1, .elems, input =>
    match parseStep f .val input with
    | some (.v v, r) =>
      match skipWs r with
      | ',' :: r2 =>
        match parseStep f .elems r2 with
        | some (.vs es, r3) => some (.vs (v :: es), r3)
        | _ => none
      | ']' :: r2 => some (.vs [v], r2)
      | _ => none
    | _ => none
  | f + 1, .members, input =>
    match skipWs input with
    | '"' :: r =>
      match parseStringRest r with
      | none => none
      | some (k, r1) =>
        match skipWs r1 with
        | ':' :: r2 =>
          match parseStep f .val r2 with
          | some (.v v, r3) =>
            match skipWs r3 with
            | ',' :: r4 =>
              match parseStep f .members r4 with
              | some (.ms ms, r5) => some (.ms ((k, v) :: ms), r5)
              | _ => none
            | '}' :: r4 => some (.ms [(k, v)], r4)
            | _ => none
          | _ => none
        | _ => none
    | _ => none

/-- `JSON.parse`: a single value with only whitespace around it.  The fuel
`2 * length + 4` dominates the parser's call depth (each nesting level
consumes at least one character). -/
def jsonParse (l : List Char) : Option Json :=
  match parseStep (2 * l.length + 4) .val l with
  | some (.v v, r) => if skipWs r = [] then some v else none
  | _ => none

/-- Property lookup on a parsed JS object: `JSON.parse` assigns duplicate
keys in order, so the last occurrence wins. -/
def lookupMember (ms : List (List Char × Json)) (k : List Char) : Option Json :=
  (ms.reverse.find? (fun kv => kv.1 = k)).map (fun kv => kv.2)

/-- The body of the backward scan in `getLastRequestedPath`: a line yields a
path iff it parses as JSON (`try`/`catch`), the value is a non-null object —
`row && typeof row.path === "string"`; only an object can have a string
`path` property, every other parse result is either falsy or has
`row.path === undefined` — whose `"path"` member is a string with
`row.path.trim() !== ""`.  The untrimmed path is returned. -/
def lineGivesPath (l : List Char) : Option (List Char) :=
  match jsonParse l with
  | some (.jobj ms) =>
    match lookupMember ms "path".data with
    | some (.jstr s) => if jsTrim s = [] then none else some s
    | _ => none
  | _ => none

/-- Remove one trailing carriage return, if present. -/
def dropTrailCR (l : List Char) : List Char :=
  if l.getLast? = some '\r' then l.dropLast else l

/-- `contents.split(/\r?\n/)`: split on newlines, each `\n` consuming an
immediately preceding `\r`.  Equivalently: split on `\n`, then strip one
trailing `\r` from every piece except the last. -/
def splitLines (contents : List Char) : List (List Char) :=
  let ps := splitOnChar '\n' contents
  ps.dropLast.map dropTrailCR ++ ps.drop (ps.length - 1)

/-- The `lines` local of `getLastRequestedPath`:
`contents.split(/\r?\n/).filter((line) => line.trim() !== "")`. -/
def validLines (contents : List Char) : List (List Char) :=
  (splitLines contents).filter (fun line => !(jsTrim line).isEmpty)

/-- Errors thrown by the wrapper's restart pipeline (§7 of the spec). -/
inductive WrapErr where
  | tooManyRestarts
  | noRequest
  | pathErr (e : PathError)
deriving DecidableEq, Repr

/-- `getLastRequestedPath` from `src/wrapper/codex-eyes.js` (lines 39-53),
as a function of the contents of `.codex-eyes/requests.jsonl`: scan the
non-blank lines from the last backwards for the first that parses to an
object with a usable `path`; throw if none does. -/
def getLastRequestedPath (contents : List Char) : Except WrapErr (List Char) :=
  match (validLines contents).reverse.findSome? lineGivesPath with
  | some p => .ok p
  | none => .error .noRequest

/-- `enforceRestartRateLimit` from `src/wrapper/codex-eyes.js` (lines 30-37)
as a function of `Date.now()` and the `restartTimestamps` array; returns the
updated array and whether the call throws `Too many restarts`. -/
def enforceRestartRateLimit (now : Int) (restartTimestamps : List Int) :
    List Int × Bool :=
  let kept := restartTimestamps.filter (fun ts => now - ts < RESTART_WINDOW_MS)
  let updated := kept ++ [now]
  (updated, decide (updated.length > MAX_RESTARTS))

/-- JS `String.prototype.includes`: `needle` occurs contiguously in
`haystack`. -/
def strIncludes (haystack needle : List Char) : Bool :=
  (List.range (haystack.length + 1)).any
    (fun i => needle.isPrefixOf (haystack.drop i))

/-- The trailing-buffer update of `onCodexOutput`: append the chunk, then
`slice(-WAIT_MARKER.length * 8)` once the buffer exceeds that capacity. -/
def appendTail (tail data : List Char) : List Char :=
  let t := tail ++ data
  if t.length > WAIT_MARKER.length * 8 then
    t.drop (t.length - WAIT_MARKER.length * 8)
  else t

/-- The environment a restart cycle reads: the clock, the request log, the
repository root, the set of existing files, whether spawning the codex
executable fails, and the `process.argv.slice(2)` launch arguments. -/
structure WrapperEnv where
  now : Int
  requestsLog : List Char
  root : List Char
  fsExists : List (List Char)
  spawnFails : Bool
  initialArgs : List (List Char)

/-- The wrapper's module-level mutable state, plus ghost instrumentation:
`spawnCount` numbers sessions (the identity of a spawned child),
`spawnedArgsLog` records the argument vector of every spawn, and
`restartInvocations` counts entries into `restartWithRequestedImage`.
`hostExitCode` is set when the host process terminates (`process.exit`). -/
structure WrapperState where
  codexProcess : Option Nat
  outputTail : List Char
  restartTimestamps : List Int
  restartInFlight : Bool
  hostExitCode : Option Int
  spawnCount : Nat
  spawnedArgsLog : List (List (List Char))
  restartInvocations : Nat

/-- `restartWithRequestedImage` from `src/wrapper/codex-eyes.js`
(lines 117-136): set the in-flight guard, clear the tail, then rate-limit,
read the last request, validate it, spawn
`codex --continue -i <safeRelativePath>`, kill the old session and nudge the
new one; any thrown error is fatal (`process.exit(1)`, which skips the
`finally`), otherwise the `finally` clears the guard. -/
def restartWithRequestedImage (env : WrapperEnv) (s : WrapperState) :
    WrapperState :=
  let s := { s with restartInFlight := true, outputTail := [],
                    restartInvocations := s.restartInvocations + 1 }
  let rate := enforceRestartRateLimit env.now s.restartTimestamps
  let s := { s with restartTimestamps := rate.1 }
  if rate.2 then { s with hostExitCode := some 1 }
  else
    match getLastRequestedPath env.requestsLog with
    | .error _ => { s with hostExitCode := some 1 }
    | .ok requestedPath =>
      match resolveSafeImagePath env.root env.fsExists requestedPath with
      | .error _ => { s with hostExitCode := some 1 }
      | .ok safeRelativePath =>
        if env.spawnFails then { s with hostExitCode := some 1 }
        else
          { s with
            codexProcess := some s.spawnCount,
            spawnCount := s.spawnCount + 1,
            spawnedArgsLog := s.spawnedArgsLog ++
              [["--continue".data, "-i".data, safeRelativePath]],
            restartInFlight := false }

/-- `onCodexOutput` from `src/wrapper/codex-eyes.js` (lines 106-115): mirror
the chunk (no modelled effect), maintain the trailing buffer, and when no
restart is in flight and the buffer contains `WAIT_MARKER`, invoke
`restartWithRequestedImage`. -/
def onCodexOutput (env : WrapperEnv) (s : WrapperState) (data : List Char) :
    WrapperState :=
  let t := appendTail s.outputTail data
  let s := { s with outputTail := t }
  if s.restartInFlight = false ∧ strIncludes t WAIT_MARKER = true then
    restartWithRequestedImage env s
  else s

/-- The `onExit` handler installed by `spawnCodex` (lines 92-101): given the
current `codexProcess`, the identity of the session that exited, the
in-flight guard and the reported exit code, return the code the host process
exits with, or `none` when the notification is ignored (stale child, or a
restart in flight).  `typeof exitCode === "number" ? exitCode : 0`. -/
def onChildExit (codexProcess : Option Nat) (selfProc : Nat)
    (restartInFlight : Bool) (exitCode : Option Int) : Option Int :=
  if codexProcess ≠ some selfProc then none
  else if restartInFlight then none
  else some (exitCode.getD 0)

/-- The argument vector of the initial spawn (line 193-195 of the wrapper):
`spawnCodex(initialArgs)` with `initialArgs = process.argv.slice(2)`. -/
def initialSpawnArgs (env : WrapperEnv) : List (List Char) := env.initialArgs

/-- The request-log example from §8 of the spec: a valid request for
`./a.png`, a malformed line, then a valid request for `./b.png`. -/
def exampleLog : List Char :=
  "\x7b\"ts\":1,\"path\":\"./a.png\"\x7d\nnot-json\n\x7b\"ts\":2,\"path\":\"./b.png\"\x7d".data

/-- A concrete environment in which a restart cycle succeeds: the log holds
one valid request for `./a.png`, the file exists under the root, the codex
executable spawns fine, and the wrapper was launched with one argument. -/
def demoEnv : WrapperEnv where
  now := 0
  requestsLog := "\x7b\"ts\":1,\"path\":\"./a.png\"\x7d".data
  root := "/repo".data
  fsExists := ["/repo/a.png".data]
  spawnFails := false
  initialArgs := ["--model".data]

/-- The wrapper's state right after startup: one live session, empty tail,
no recorded restarts, guard down. -/
def demoState : WrapperState where
  codexProcess := some 0
  outputTail := []
  restartTimestamps := []
  restartInFlight := false
  hostExitCode := none
  spawnCount := 1
  spawnedArgsLog := [["--model".data]]
  restartInvocations := 0

/-! ## Helper lemmas -/

/-- Every entry into `restartWithRequestedImage` counts as one orchestrator
invocation, on every control path. -/
theorem restart_invocations (env : WrapperEnv) (s : WrapperState) :
    (restartWithRequestedImage env s).restartInvocations
      = s.restartInvocations + 1 := by
  unfold restartWithRequestedImage
  dsimp only
  split
  · rfl
  · split
    · rfl
    · split
      · rfl
      · split <;> rfl

/-- A restart that does not terminate the host process ends with the
in-flight guard cleared (the `finally` block). -/
theorem restart_guard_cleared (env : WrapperEnv) (s : WrapperState)
    (h : (restartWithRequestedImage env s).hostExitCode = none) :
    (restartWithRequestedImage env s).restartInFlight = false := by
  unfold restartWithRequestedImage at h ⊢
  dsimp only at h ⊢
  revert h
  split
  · intro h; simp at h
  · split
    · intro h; simp at h
    · split
      · intro h; simp at h
      · split
        · intro h; simp at h
        · intro h; rfl

/-- A restart always leaves the output tail cleared. -/
theorem restart_tail_cleared (env : WrapperEnv) (s : WrapperState) :
    (restartWithRequestedImage env s).outputTail = [] := by
  unfold restartWithRequestedImage
  dsimp only
  split
  · rfl
  · split
    · rfl
    · split
      · rfl
      · split <;> rfl

/-- `strIncludes` holds for any factorization witness. -/
theorem strIncludes_of_append (u n v : List Char) :
    strIncludes (u ++ (n ++ v)) n = true := by
  unfold strIncludes
  rw [List.any_eq_true]
  refine ⟨u.length, ?_, ?_⟩
  · rw [List.mem_range, List.length_append]
    omega
  · rw [List.drop_left, List.isPrefixOf_iff_prefix]
    exact List.prefix_append n v

/-! ## Claims -/

/-- C5: a child-exit notification from a process that is not the currently
active session is ignored (the host does not terminate), by identity
comparison; a notification from the active session with no restart in flight
makes the host exit with the child's own code, defaulting to 0 when the
reported code is not a number. -/
theorem c5_child_exit (codexProcess : Option Nat) (selfProc : Nat)
    (inflight : Bool) (code : Option Int) :
    (codexProcess ≠ some selfProc →
      onChildExit codexProcess selfProc inflight code = none) ∧
    (codexProcess = some selfProc → inflight = false →
      onChildExit codexProcess selfProc inflight code = some (code.getD 0)) := by
  constructor
  · intro h
    unfold onChildExit
    rw [if_pos h]
  · intro h hf
    unfold onChildExit
    rw [if_neg (by simp [h]), hf]
    rfl

/-- Witness for C5: a stale session 7 exiting while session 3 is active is
ignored; session 3 exiting with code 2 and no restart in flight makes the
host exit with code 2. -/
theorem c5_child_exit_witness :
    onChildExit (some 3) 7 false (some 2) = none ∧
    onChildExit (some 3) 3 false (some 2) = some 2 :=
  ⟨(c5_child_exit (some 3) 7 false (some 2)).1 (by decide),
   (c5_child_exit (some 3) 3 false (some 2)).2 rfl rfl⟩

/-- C7 counterexample: six admission calls at the same instant starting from
the empty window end with 6 recorded timestamps, exceeding the configured
maximum of 5 — the failing sixth call still records its timestamp, so the
window length is not bounded by the maximum at the end of every admission
check. -/
theorem c7_counterexample :
    (enforceRestartRateLimit 0 (enforceRestartRateLimit 0
      (enforceRestartRateLimit 0 (enforceRestartRateLimit 0
        (enforceRestartRateLimit 0 (enforceRestartRateLimit 0 []).1).1).1).1).1).1.length
      > MAX_RESTARTS := by decide

/-- C7 (amended): at the end of every admission check that succeeds (does
not throw `TooManyRestarts`), the recorded window length is at most the
configured maximum; a failing check can leave the window one past the
maximum. -/
theorem c7_window_bound (now : Int) (ts : List Int)
    (h : (enforceRestartRateLimit now ts).2 = false) :
    (enforceRestartRateLimit now ts).1.length ≤ MAX_RESTARTS := by
  unfold enforceRestartRateLimit at h ⊢
  dsimp only at h ⊢
  rw [decide_eq_false_iff_not] at h
  omega

/-- Witness for C7 (amended): the first admission from an empty window
succeeds and leaves one timestamp. -/
theorem c7_window_bound_witness :
    (enforceRestartRateLimit 0 []).1.length ≤ MAX_RESTARTS :=
  c7_window_bound 0 [] (by decide)

/-- C2: starting from an empty restart window, for any nondecreasing call
times all within one 5-minute window, admissions 1-5 succeed, the 6th throws
`TooManyRestarts` while still recording its timestamp, and a later call made
after all recorded timestamps aged out of the window succeeds again. -/
theorem c2_rate_limiter (t1 t2 t3 t4 t5 t6 T : Int)
    (h12 : t1 ≤ t2) (h23 : t2 ≤ t3) (h34 : t3 ≤ t4) (h45 : t4 ≤ t5)
    (h56 : t5 ≤ t6) (hwin : t6 - t1 < RESTART_WINDOW_MS)
    (hT : RESTART_WINDOW_MS ≤ T - t6) :
    enforceRestartRateLimit t1 [] = ([t1], false) ∧
    enforceRestartRateLimit t2 [t1] = ([t1, t2], false) ∧
    enforceRestartRateLimit t3 [t1, t2] = ([t1, t2, t3], false) ∧
    enforceRestartRateLimit t4 [t1, t2, t3] = ([t1, t2, t3, t4], false) ∧
    enforceRestartRateLimit t5 [t1, t2, t3, t4] = ([t1, t2, t3, t4, t5], false) ∧
    enforceRestartRateLimit t6 [t1, t2, t3, t4, t5] = ([t1, t2, t3, t4, t5, t6], true) ∧
    enforceRestartRateLimit T [t1, t2, t3, t4, t5, t6] = ([T], false) := by
  simp only [RESTART_WINDOW_MS] at hwin hT
  have key : ∀ (now : Int) (l : List Int), (∀ x ∈ l, now - x < RESTART_WINDOW_MS) →
      enforceRestartRateLimit now l
        = (l ++ [now], decide (l.length + 1 > MAX_RESTARTS)) := by
    intro now l h
    unfold enforceRestartRateLimit
    rw [List.filter_eq_self.mpr (fun a ha => decide_eq_true (h a ha))]
    simp
  have keyN : ∀ (now : Int) (l : List Int),
      (∀ x ∈ l, ¬(now - x < RESTART_WINDOW_MS)) →
      enforceRestartRateLimit now l = ([now], false) := by
    intro now l h
    unfold enforceRestartRateLimit
    rw [List.filter_eq_nil_iff.mpr
      (fun a ha hc => h a ha (of_decide_eq_true hc))]
    rfl
  refine ⟨?_, ?_, ?_, ?_, ?_, ?_, ?_⟩
  · rw [key t1 [] (by simp)]; rfl
  · rw [key t2 [t1] ?_]
    · rfl
    · intro x hx
      simp only [List.mem_singleton] at hx
      subst hx
      simp only [RESTART_WINDOW_MS]
      omega
  · rw [key t3 [t1, t2] ?_]
    · rfl
    · intro x hx
      simp only [List.mem_cons, List.mem_singleton] at hx
      simp only [RESTART_WINDOW_MS]
      rcases hx with rfl | rfl | h <;> first | omega | (cases h)
  · rw [key t4 [t1, t2, t3] ?_]
    · rfl
    · intro x hx
      simp only [List.mem_cons, List.mem_singleton] at hx
      simp only [RESTART_WINDOW_MS]
      rcases hx with rfl | rfl | rfl | h <;> first | omega | (cases h)
  · rw [key t5 [t1, t2, t3, t4] ?_]
    · rfl
    · intro x hx
      simp only [List.mem_cons, List.mem_singleton] at hx
      simp only [RESTART_WINDOW_MS]
      rcases hx with rfl | rfl | rfl | rfl | h <;> first | omega | (cases h)
  · rw [key t6 [t1, t2, t3, t4, t5] ?_]
    · rfl
    · intro x hx
      simp only [List.mem_cons, List.mem_singleton] at hx
      simp only [RESTART_WINDOW_MS]
      rcases hx with rfl | rfl | rfl | rfl | rfl | h <;> first | omega | (cases h)
  · rw [keyN T [t1, t2, t3, t4, t5, t6] ?_]
    intro x hx
    simp only [List.mem_cons, List.mem_singleton] at hx
    simp only [RESTART_WINDOW_MS]
    rcases hx with rfl | rfl | rfl | rfl | rfl | rfl | h <;> first | omega | (cases h)

/-- Witness for C2: calls at 0..5 ms and a later call at 300005 ms. -/
theorem c2_rate_limiter_witness :
    enforceRestartRateLimit 5 [0, 1, 2, 3, 4] = ([0, 1, 2, 3, 4, 5], true) ∧
    enforceRestartRateLimit 300005 [0, 1, 2, 3, 4, 5] = ([300005], false) :=
  ⟨(c2_rate_limiter 0 1 2 3 4 5 300005 (by decide) (by decide) (by decide)
      (by decide) (by decide) (by decide) (by decide)).2.2.2.2.2.1,
   (c2_rate_limiter 0 1 2 3 4 5 300005 (by decide) (by decide) (by decide)
      (by decide) (by decide) (by decide) (by decide)).2.2.2.2.2.2⟩

/-- C8 counterexample: for the candidate `.hidden.png` naming an existing
dotfile at the repository root, validation succeeds but returns
`.hidden.png`, which does not begin with the two characters `./` — the
sources only prefix `./` when the relative path does not already start with
a dot. -/
theorem c8_counterexample :
    resolveSafeImagePath "/repo".data ["/repo/.hidden.png".data]
        ".hidden.png".data = .ok ".hidden.png".data ∧
    ("./".data.isPrefixOf ".hidden.png".data) = false :=
  ⟨rfl, rfl⟩

/-- C8 (amended): for every candidate that validation accepts, the returned
value is the root-relative form of the resolved path, prefixed with `./`
when it does not already begin with a dot; it always begins with a dot, but
a dotfile path such as `.hidden.png` is returned without the `./` prefix. -/
theorem c8_relative_form (root : List Char) (fsExists : List (List Char))
    (p v : List Char)
    (h : resolveSafeImagePath root fsExists p = .ok v ∨
         toSafeRepoRelativePath root fsExists p = .ok v) :
    v.head? = some '.' ∧
    (v = relativePath root (resolvePath root p) ∨
     v = '.' :: '/' :: relativePath root (resolvePath root p)) := by
  have core : ∀ w : List Char,
      (if w.head? = some '.' then w else '.' :: '/' :: w) = v →
      w = relativePath root (resolvePath root p) →
      v.head? = some '.' ∧
      (v = relativePath root (resolvePath root p) ∨
       v = '.' :: '/' :: relativePath root (resolvePath root p)) := by
    intro w hw hrel
    subst hrel
    split at hw
    · subst hw
      exact ⟨by assumption, Or.inl rfl⟩
    · subst hw
      exact ⟨rfl, Or.inr rfl⟩
  rcases h with h | h
  · unfold resolveSafeImagePath at h
    split at h
    · simp at h
    · dsimp only at h
      split at h
      · simp at h
      · split at h
        · simp at h
        · split at h
          · simp at h
          · rw [Except.ok.injEq] at h
            exact core _ h rfl
  · unfold toSafeRepoRelativePath at h
    split at h
    · simp at h
    · split at h
      · simp at h
      · dsimp only at h
        split at h
        · simp at h
        · split at h
          · simp at h
          · split at h
            · simp at h
            · rw [Except.ok.injEq] at h
              exact core _ h rfl

/-- Witness for C8 (amended): accepting `a.png` under root `/repo` returns
`./a.png`, the `./`-prefixed root-relative form. -/
theorem c8_relative_form_witness :
    ("./a.png".data).head? = some '.' ∧
    ("./a.png".data = relativePath "/repo".data
        (resolvePath "/repo".data "a.png".data) ∨
     "./a.png".data = '.' :: '/' :: relativePath "/repo".data
        (resolvePath "/repo".data "a.png".data)) :=
  c8_relative_form "/repo".data ["/repo/a.png".data] "a.png".data
    "./a.png".data (Or.inl rfl)

/-- C1 counterexample to the per-variant wording: the candidate `../x.txt`
carries a disallowed extension yet is rejected with the traversal error, not
the unsupported-extension error; and the absolute candidate `/x.png`
resolves outside the root yet is rejected with the absolute-path error, not
the traversal error — the checks run in order and the first failing one
picks the variant. -/
theorem c1_counterexample :
    resolveSafeImagePath "/repo".data [] "../x.txt".data
      = .error .traversal ∧
    PathError.traversal ≠ PathError.unsupportedExtension ∧
    (extname (resolvePath "/repo".data "../x.txt".data)).map Char.toLower
      ∉ ALLOWED_EXTENSIONS ∧
    resolveSafeImagePath "/repo".data [] "/x.png".data
      = .error .absolutePath ∧
    PathError.absolutePath ≠ PathError.traversal ∧
    ¬(resolvePath "/repo".data "/x.png".data = "/repo".data ∨
      (rootWithSep "/repo".data).isPrefixOf
        (resolvePath "/repo".data "/x.png".data)) :=
  ⟨rfl, by decide, by decide, rfl, by decide, by decide⟩

/-- C1 (amended): a relative candidate whose resolution against the root is
neither the root nor strictly beneath it is rejected with the traversal
error (by both validators; the MCP validator reaches this check only for
non-blank input); a candidate surviving the earlier checks whose extension,
lowered, is outside the allow-list is rejected with the
unsupported-extension error; and no candidate resolving outside the root or
carrying a disallowed extension is ever accepted by either validator. -/
theorem c1_validation_rejects (root : List Char) (fsExists : List (List Char))
    (p : List Char) :
    (isAbsolutePath p = false →
      ¬(resolvePath root p = root ∨
        (rootWithSep root).isPrefixOf (resolvePath root p)) →
      resolveSafeImagePath root fsExists p = .error .traversal ∧
      (jsTrim p ≠ [] →
        toSafeRepoRelativePath root fsExists p = .error .traversal)) ∧
    (isAbsolutePath p = false →
      (resolvePath root p = root ∨
        (rootWithSep root).isPrefixOf (resolvePath root p)) →
      (extname (resolvePath root p)).map Char.toLower ∉ ALLOWED_EXTENSIONS →
      resolveSafeImagePath root fsExists p = .error .unsupportedExtension ∧
      (jsTrim p ≠ [] →
        toSafeRepoRelativePath root fsExists p = .error .unsupportedExtension)) ∧
    ((¬(resolvePath root p = root ∨
        (rootWithSep root).isPrefixOf (resolvePath root p)) ∨
      (extname (resolvePath root p)).map Char.toLower ∉ ALLOWED_EXTENSIONS) →
      ∀ v, resolveSafeImagePath root fsExists p ≠ .ok v ∧
           toSafeRepoRelativePath root fsExists p ≠ .ok v) := by
  refine ⟨?_, ?_, ?_⟩
  · intro habs hout
    constructor
    · unfold resolveSafeImagePath
      rw [if_neg (by simp [habs])]
      dsimp only
      rw [if_pos hout]
    · intro ht
      unfold toSafeRepoRelativePath
      rw [if_neg ht, if_neg (by simp [habs])]
      dsimp only
      rw [if_pos hout]
  · intro habs hin hext
    constructor
    · unfold resolveSafeImagePath
      rw [if_neg (by simp [habs])]
      dsimp only
      rw [if_neg (not_not_intro hin)]
      rw [if_pos hext]
    · intro ht
      unfold toSafeRepoRelativePath
      rw [if_neg ht, if_neg (by simp [habs])]
      dsimp only
      rw [if_neg (not_not_intro hin)]
      rw [if_pos hext]
  · intro h v
    constructor
    · intro hok
      unfold resolveSafeImagePath at hok
      split at hok
      · simp at hok
      · dsimp only at hok
        split at hok
        · simp at hok
        · rename_i hin
          rw [not_not] at hin
          split at hok
          · simp at hok
          · rename_i hext
            rw [not_not] at hext
            rcases h with h | h
            · exact h hin
            · exact h hext
    · intro hok
      unfold toSafeRepoRelativePath at hok
      split at hok
      · simp at hok
      · split at hok
        · simp at hok
        · dsimp only at hok
          split at hok
          · simp at hok
          · rename_i hin
            rw [not_not] at hin
            split at hok
            · simp at hok
            · rename_i hext
              rw [not_not] at hext
              rcases h with h | h
              · exact h hin
              · exact h hext

/-- Witness for C1: under root `/repo`, the traversal candidate `../x.png`
draws the traversal error from both validators, the bad extension `a.txt`
draws the unsupported-extension error from both, and neither input is ever
accepted. -/
theorem c1_validation_rejects_witness :
    (resolveSafeImagePath "/repo".data [] "../x.png".data
        = .error .traversal ∧
     toSafeRepoRelativePath "/repo".data [] "../x.png".data
        = .error .traversal) ∧
    (resolveSafeImagePath "/repo".data [] "a.txt".data
        = .error .unsupportedExtension ∧
     toSafeRepoRelativePath "/repo".data [] "a.txt".data
        = .error .unsupportedExtension) ∧
    (resolveSafeImagePath "/repo".data [] "../x.png".data
        ≠ .ok "./x.png".data) := by
  have h1 := (c1_validation_rejects "/repo".data [] "../x.png".data).1
    (by decide) (by decide)
  have h2 := (c1_validation_rejects "/repo".data [] "a.txt".data).2.1
    (by decide) (by decide) (by decide)
  have h3 := (c1_validation_rejects "/repo".data [] "../x.png".data).2.2
    (Or.inl (by decide)) "./x.png".data
  exact ⟨⟨h1.1, h1.2 (by decide)⟩, ⟨h2.1, h2.2 (by decide)⟩, h3.1⟩

/-- C6 counterexample: in a concrete successful restart cycle (wrapper
launched with `--model`, one valid request for `./a.png`), the restart spawn
uses exactly `["--continue", "-i", "./a.png"]` — the original launch
arguments are not included, contradicting "original launch arguments plus a
resume directive and an attach-image directive". -/
theorem c6_counterexample :
    (restartWithRequestedImage demoEnv demoState).spawnedArgsLog.getLast?
      = some ["--continue".data, "-i".data, "./a.png".data] ∧
    some ["--continue".data, "-i".data, "./a.png".data]
      ≠ some (demoEnv.initialArgs ++
          ["--continue".data, "-i".data, "./a.png".data]) := by
  constructor
  · rfl
  · decide

/-- C6 (amended): whenever a restart cycle reaches the spawn step, the new
session is spawned with exactly a resume directive (`--continue`) and an
attach-image directive (`-i`) carrying the validated path of the most recent
request; the original launch arguments are not reused. -/
theorem c6_restart_args (env : WrapperEnv) (s : WrapperState)
    (h : (restartWithRequestedImage env s).hostExitCode = none) :
    ∃ req pth, getLastRequestedPath env.requestsLog = .ok req ∧
      resolveSafeImagePath env.root env.fsExists req = .ok pth ∧
      (restartWithRequestedImage env s).spawnedArgsLog
        = s.spawnedArgsLog ++ [["--continue".data, "-i".data, pth]] := by
  unfold restartWithRequestedImage at h ⊢
  dsimp only at h ⊢
  revert h
  split
  · intro h; simp at h
  · split
    · intro h; simp at h
    · rename_i req hreq
      split
      · intro h; simp at h
      · rename_i pth hpth
        split
        · intro h; simp at h
        · intro h
          exact ⟨req, pth, hreq, hpth, rfl⟩

/-- Witness for C6 (amended): the concrete successful restart appends
exactly the spawn `["--continue", "-i", "./a.png"]` to the spawn log. -/
theorem c6_restart_args_witness :
    (restartWithRequestedImage demoEnv demoState).spawnedArgsLog
      = [["--model".data], ["--continue".data, "-i".data, "./a.png".data]] := by
  obtain ⟨req, pth, hreq, hpth, hlog⟩ :=
    c6_restart_args demoEnv demoState (by decide)
  have h1 : getLastRequestedPath demoEnv.requestsLog
      = .ok ("./a.png".data : List Char) := by rfl
  rw [h1] at hreq
  have hreq2 : ("./a.png".data : List Char) = req := by
    injection hreq
  subst hreq2
  have h2 : resolveSafeImagePath demoEnv.root demoEnv.fsExists "./a.png".data
      = .ok ("./a.png".data : List Char) := by rfl
  rw [h2] at hpth
  have hpth2 : ("./a.png".data : List Char) = pth := by
    injection hpth
  subst hpth2
  rw [hlog]
  rfl

/-- C10: the in-flight guard is cleared on every non-fatal restart path;
across any output event that does not terminate the host, a down guard stays
down; and after a successful restart, marker detection is re-enabled — a
fresh marker in the output triggers the orchestrator again. -/
theorem c10_guard_invariant :
    (∀ env s, (restartWithRequestedImage env s).hostExitCode = none →
      (restartWithRequestedImage env s).restartInFlight = false) ∧
    (∀ env s d, s.restartInFlight = false →
      (onCodexOutput env s d).hostExitCode = none →
      (onCodexOutput env s d).restartInFlight = false) ∧
    (∀ env env2 s, (restartWithRequestedImage env s).hostExitCode = none →
      (onCodexOutput env2 (restartWithRequestedImage env s)
          WAIT_MARKER).restartInvocations
        = (restartWithRequestedImage env s).restartInvocations + 1) := by
  refine ⟨fun env s h => restart_guard_cleared env s h, ?_, ?_⟩
  · intro env s d hguard hexit
    unfold onCodexOutput at hexit ⊢
    dsimp only at hexit ⊢
    revert hexit
    split
    · intro hexit
      exact restart_guard_cleared _ _ hexit
    · intro _
      exact hguard
  · intro env env2 s hfatal
    have hg : (restartWithRequestedImage env s).restartInFlight = false :=
      restart_guard_cleared env s hfatal
    have ht : (restartWithRequestedImage env s).outputTail = [] :=
      restart_tail_cleared env s
    unfold onCodexOutput
    dsimp only
    rw [ht]
    rw [if_pos ⟨hg, by decide⟩]
    rw [restart_invocations]

/-- Witness for C10: the concrete successful restart ends with the guard
down, and feeding the marker right after it invokes the orchestrator once
more. -/
theorem c10_guard_invariant_witness :
    (restartWithRequestedImage demoEnv demoState).restartInFlight = false ∧
    (onCodexOutput demoEnv (restartWithRequestedImage demoEnv demoState)
        WAIT_MARKER).restartInvocations
      = (restartWithRequestedImage demoEnv demoState).restartInvocations + 1 :=
  ⟨c10_guard_invariant.1 demoEnv demoState (by decide),
   c10_guard_invariant.2.2 demoEnv demoEnv demoState (by decide)⟩

/-- C4: the trailing buffer keeps the last 8×marker-length characters, so a
marker split as `m1 ++ m2` across two consecutive chunks — where the first
feed matches nothing and the marker plus the second chunk's trailing bytes
fit the retained capacity — invokes the restart orchestrator exactly once
(zero invocations on the first feed, one on the second); and any feed
arriving while the in-flight guard is set never invokes it. -/
theorem c4_marker_detection (env : WrapperEnv) (s0 : WrapperState)
    (x y m1 m2 : List Char)
    (hguard : s0.restartInFlight = false)
    (hsplit : WAIT_MARKER = m1 ++ m2) (hm1 : m1 ≠ []) (hm2 : m2 ≠ [])
    (hno : strIncludes (appendTail s0.outputTail (x ++ m1)) WAIT_MARKER = false)
    (hfit : WAIT_MARKER.length + y.length ≤ WAIT_MARKER.length * 8) :
    (onCodexOutput env s0 (x ++ m1)).restartInvocations
        = s0.restartInvocations ∧
    (onCodexOutput env (onCodexOutput env s0 (x ++ m1))
        (m2 ++ y)).restartInvocations
      = s0.restartInvocations + 1 ∧
    (∀ s d, s.restartInFlight = true →
      (onCodexOutput env s d).restartInvocations = s.restartInvocations) := by
  have h1 : onCodexOutput env s0 (x ++ m1)
      = { s0 with outputTail := appendTail s0.outputTail (x ++ m1) } := by
    unfold onCodexOutput
    dsimp only
    rw [if_neg]
    intro hcond
    exact absurd hcond.2 (by simp [hno])
  have hm1t : m1 <:+ appendTail s0.outputTail (x ++ m1) := by
    have hsfull : m1 <:+ (s0.outputTail ++ (x ++ m1)) := by
      rw [← List.append_assoc]
      exact List.suffix_append _ _
    unfold appendTail
    dsimp only
    split
    · rename_i hlen
      have hsub := List.drop_suffix
        ((s0.outputTail ++ (x ++ m1)).length - WAIT_MARKER.length * 8)
        (s0.outputTail ++ (x ++ m1))
      have hlen2 : ((s0.outputTail ++ (x ++ m1)).drop
          ((s0.outputTail ++ (x ++ m1)).length - WAIT_MARKER.length * 8)).length
          = WAIT_MARKER.length * 8 := by
        rw [List.length_drop]
        omega
      rcases List.suffix_or_suffix_of_suffix hsfull hsub with h | h
      · exact h
      · have hle : m1.length ≤ WAIT_MARKER.length * 8 := by
          have hm : m1.length ≤ WAIT_MARKER.length := by
            rw [hsplit, List.length_append]
            omega
          omega
        have heq := h.eq_of_length_le (by rw [hlen2]; exact hle)
        rw [heq]
    · exact hsfull
  obtain ⟨w, hw⟩ := hm1t
  have hfull : (w ++ m1) ++ (m2 ++ y) = w ++ (WAIT_MARKER ++ y) := by
    rw [hsplit]
    simp [List.append_assoc]
  have hinc2 : strIncludes
      (appendTail (appendTail s0.outputTail (x ++ m1)) (m2 ++ y))
      WAIT_MARKER = true := by
    rw [← hw]
    unfold appendTail
    dsimp only
    rw [hfull]
    split
    · rename_i hlen
      have hd : (w ++ (WAIT_MARKER ++ y)).length - WAIT_MARKER.length * 8
          ≤ w.length := by
        rw [List.length_append, List.length_append]
        omega
      rw [List.drop_append_of_le_length hd]
      exact strIncludes_of_append _ _ _
    · exact strIncludes_of_append _ _ _
  refine ⟨?_, ?_, ?_⟩
  · rw [h1]
  · rw [h1]
    unfold onCodexOutput
    dsimp only
    rw [if_pos ⟨hguard, hinc2⟩]
    rw [restart_invocations]
  · intro s d hs
    unfold onCodexOutput
    dsimp only
    rw [if_neg]
    intro hcond
    have hA : s.restartInFlight = false := hcond.1
    rw [hA] at hs
    exact Bool.false_ne_true hs

/-- Witness for C4: with an empty tail, feeding `abc<<WAITING_FOR_` then
`IMAGE>>xy` triggers exactly one orchestrator invocation, on the second
feed. -/
theorem c4_marker_detection_witness :
    (onCodexOutput demoEnv demoState
        ("abc".data ++ "<<WAITING_FOR_".data)).restartInvocations
      = demoState.restartInvocations ∧
    (onCodexOutput demoEnv (onCodexOutput demoEnv demoState
        ("abc".data ++ "<<WAITING_FOR_".data))
        ("IMAGE>>".data ++ "xy".data)).restartInvocations
      = demoState.restartInvocations + 1 :=
  ⟨(c4_marker_detection demoEnv demoState "abc".data "xy".data
      "<<WAITING_FOR_".data "IMAGE>>".data rfl (by decide) (by decide)
      (by decide) (by decide) (by decide)).1,
   (c4_marker_detection demoEnv demoState "abc".data "xy".data
      "<<WAITING_FOR_".data "IMAGE>>".data rfl (by decide) (by decide)
      (by decide) (by decide) (by decide)).2.1⟩

/-- Scanning a list from its last element backwards with `findSome?` yields
`some p` exactly when some element maps to `some p` and everything after it
maps to `none`. -/
theorem findSome?_reverse_eq_some_iff {α β : Type} (f : α → Option β)
    (l : List α) (p : β) :
    l.reverse.findSome? f = some p ↔
      ∃ pre L post, l = pre ++ L :: post ∧ f L = some p ∧
        ∀ M ∈ post, f M = none := by
  induction l using List.reverseRecOn with
  | nil =>
    constructor
    · intro h
      simp at h
    · rintro ⟨pre, L, post, heq, -, -⟩
      exact absurd heq.symm (List.append_ne_nil_of_right_ne_nil pre
        (List.cons_ne_nil L post))
  | append_singleton l a ih =>
    rw [List.reverse_append, List.reverse_singleton, List.singleton_append,
      List.findSome?_cons]
    cases hfa : f a with
    | some b =>
      constructor
      · intro h
        rw [Option.some.injEq] at h
        subst h
        exact ⟨l, a, [], rfl, hfa, by simp⟩
      · rintro ⟨pre, L, post, heq, hfL, hpost⟩
        rcases List.eq_nil_or_concat post with rfl | ⟨q, c, rfl⟩
        · have hlast := List.getLast?_concat (a := a) l
          rw [heq, List.getLast?_concat, Option.some.injEq] at hlast
          subst hlast
          rw [hfL] at hfa
          exact hfa.symm
        · have hlast := List.getLast?_concat (a := a) l
          rw [heq, List.concat_eq_append, ← List.cons_append,
            ← List.append_assoc, List.getLast?_concat,
            Option.some.injEq] at hlast
          have hc : f c = none := hpost c (by simp)
          rw [hlast, hfa] at hc
          exact absurd hc (by simp)
    | none =>
      rw [ih]
      constructor
      · rintro ⟨pre, L, post, heq, hfL, hpost⟩
        refine ⟨pre, L, post ++ [a], by rw [heq]; simp, hfL, ?_⟩
        intro M hM
        rcases List.mem_append.mp hM with h | h
        · exact hpost M h
        · rw [List.mem_singleton] at h
          subst h
          exact hfa
      · rintro ⟨pre, L, post, heq, hfL, hpost⟩
        rcases List.eq_nil_or_concat post with rfl | ⟨q, c, rfl⟩
        · have hlast := List.getLast?_concat (a := a) l
          rw [heq, List.getLast?_concat, Option.some.injEq] at hlast
          subst hlast
          rw [hfL] at hfa
          exact absurd hfa (by simp)
        · have hlast := List.getLast?_concat (a := a) l
          rw [heq, List.concat_eq_append, ← List.cons_append,
            ← List.append_assoc, List.getLast?_concat,
            Option.some.injEq] at hlast
          have hcancel : l = pre ++ L :: q := by
            have hstep : l ++ [a] = (pre ++ L :: q) ++ [a] := by
              rw [heq, ← hlast, List.concat_eq_append]
              simp [List.append_assoc]
            exact List.append_cancel_right hstep
          refine ⟨pre, L, q, hcancel, hfL, ?_⟩
          intro M hM
          exact hpost M (by rw [List.concat_eq_append]; exact
            List.mem_append_left _ hM)

/-- Backward scan finds nothing exactly when no element qualifies. -/
theorem findSome?_reverse_eq_none_iff {α β : Type} (f : α → Option β)
    (l : List α) :
    l.reverse.findSome? f = none ↔ ∀ L ∈ l, f L = none := by
  rw [List.findSome?_eq_none_iff]
  constructor
  · intro h L hL
    exact h L (List.mem_reverse.mpr hL)
  · intro h L hL
    exact h L (List.mem_reverse.mp hL)

/-- C3: for every log contents, the reader returns `P` exactly when, among
the non-blank lines, some line parses as JSON to an object with a non-empty
string `path` field `P` and every later such line fails to parse or lacks a
usable path — so the most recent qualifying line wins and malformed lines
never fail the read; and it fails with the no-request error exactly when no
line qualifies. -/
theorem c3_queue_reader (contents : List Char) :
    (∀ p, getLastRequestedPath contents = .ok p ↔
      ∃ pre L post, validLines contents = pre ++ L :: post ∧
        lineGivesPath L = some p ∧ ∀ M ∈ post, lineGivesPath M = none) ∧
    (getLastRequestedPath contents = .error .noRequest ↔
      ∀ L ∈ validLines contents, lineGivesPath L = none) := by
  constructor
  · intro p
    rw [← findSome?_reverse_eq_some_iff lineGivesPath (validLines contents) p]
    unfold getLastRequestedPath
    cases h : (validLines contents).reverse.findSome? lineGivesPath with
    | none => simp
    | some q => simp
  · rw [← findSome?_reverse_eq_none_iff lineGivesPath (validLines contents)]
    unfold getLastRequestedPath
    cases h : (validLines contents).reverse.findSome? lineGivesPath with
    | none => simp
    | some q => simp

/-- Witness for C3, the example from the spec: a valid request for
`./a.png`, then a malformed line, then a valid request for `./b.png` — the
reader returns `./b.png`. -/
theorem c3_queue_reader_witness :
    getLastRequestedPath exampleLog = .ok "./b.png".data :=
  ((c3_queue_reader exampleLog).1 "./b.png".data).mpr
    ⟨["\x7b\"ts\":1,\"path\":\"./a.png\"\x7d".data, "not-json".data],
     "\x7b\"ts\":2,\"path\":\"./b.png\"\x7d".data, [], by rfl, by rfl, by simp⟩

/-- JS whitespace is never a slash or a dot. -/
theorem ws_ne {c : Char} (h : jsIsWhitespace c = true) :
    c ≠ '/' ∧ c ≠ '.' := by
  constructor
  · rintro rfl
    exact absurd h (by decide)
  · rintro rfl
    exact absurd h (by decide)

/-- A string that trims to empty consists of whitespace only. -/
theorem jsTrim_eq_nil_imp {l : List Char} (h : jsTrim l = []) :
    ∀ c ∈ l, jsIsWhitespace c = true := by
  unfold jsTrim at h
  rw [List.reverse_eq_nil_iff, List.dropWhile_eq_nil_iff] at h
  intro c hc
  rw [← List.takeWhile_append_dropWhile (p := jsIsWhitespace) (l := l)]
    at hc
  rcases List.mem_append.mp hc with hc | hc
  · exact List.mem_takeWhile_imp hc
  · exact h c (List.mem_reverse.mpr hc)

/-- Unfolding equation of `splitOnChar` on a cons cell. -/
theorem splitOnChar_cons (sep c : Char) (l : List Char) :
    splitOnChar sep (c :: l)
      = match splitOnChar sep l with
        | [] => [[c]]
        | y :: ys => if c = sep then [] :: y :: ys else (c :: y) :: ys := rfl

/-- `splitOnChar` never returns the empty list. -/
theorem splitOnChar_ne_nil (sep : Char) (l : List Char) :
    splitOnChar sep l ≠ [] := by
  induction l with
  | nil => simp [splitOnChar]
  | cons c rest ih =>
    rw [splitOnChar_cons]
    cases h : splitOnChar sep rest with
    | nil => exact absurd h ih
    | cons y ys =>
      dsimp only
      split <;> simp

/-- Splitting an explicit separator occurrence splits the two sides. -/
theorem splitOnChar_append_cons (sep : Char) (a b : List Char) :
    splitOnChar sep (a ++ sep :: b)
      = splitOnChar sep a ++ splitOnChar sep b := by
  induction a with
  | nil =>
    rw [List.nil_append, splitOnChar_cons]
    cases h : splitOnChar sep b with
    | nil => exact absurd h (splitOnChar_ne_nil sep b)
    | cons y ys =>
      dsimp only
      rw [if_pos rfl]
      simp [splitOnChar]
  | cons c a ih =>
    rw [List.cons_append, splitOnChar_cons, ih, splitOnChar_cons]
    cases h : splitOnChar sep a with
    | nil => exact absurd h (splitOnChar_ne_nil sep a)
    | cons y ys =>
      dsimp only [List.cons_append]
      split <;> simp

/-- A separator-free string splits to itself alone. -/
theorem splitOnChar_eq_single (sep : Char) (l : List Char)
    (h : ∀ c ∈ l, c ≠ sep) : splitOnChar sep l = [l] := by
  induction l with
  | nil => rfl
  | cons c rest ih =>
    rw [splitOnChar_cons, ih (fun x hx => h x (List.mem_cons_of_mem c hx))]
    dsimp only
    rw [if_neg (h c (List.mem_cons_self c rest))]

/-- Appending a last segment to a nonempty segment list. -/
theorem joinSegs_append_singleton :
    ∀ (ss : List (List Char)) (p : List Char), ss ≠ [] →
      joinSegs (ss ++ [p]) = joinSegs ss ++ '/' :: p
  | [], _, h => absurd rfl h
  | [s], p, _ => by
    show s ++ '/' :: joinSegs [p] = s ++ '/' :: p
    rfl
  | s :: r :: rs, p, _ => by
    have ih := joinSegs_append_singleton (r :: rs) p (List.cons_ne_nil r rs)
    show s ++ '/' :: joinSegs ((r :: rs) ++ [p])
      = (s ++ '/' :: joinSegs (r :: rs)) ++ '/' :: p
    rw [ih]
    simp

/-- A basename with no dot has no extension. -/
theorem extOfBase_eq_nil (b : List Char) (h : ∀ c ∈ b, c ≠ '.') :
    extOfBase b = [] := by
  unfold extOfBase
  have hidx : b.reverse.findIdx? (fun c => c = '.') = none := by
    rw [List.findIdx?_eq_none_iff]
    intro x hx
    exact decide_eq_false (h x (List.mem_reverse.mp hx))
  rw [hidx]

/-- The extension of a path whose last segment is the nonempty, slash-free
`p` is the extension of `p` itself. -/
theorem extname_append_seg (u p : List Char) (hp : p ≠ [])
    (hs : ∀ c ∈ p, c ≠ '/') : extname (u ++ '/' :: p) = extOfBase p := by
  unfold extname
  dsimp only
  rcases List.eq_nil_or_concat p with rfl | ⟨q, a, rfl⟩
  · exact absurd rfl hp
  · have hrev : (u ++ '/' :: q.concat a).reverse
        = a :: (q.reverse ++ '/' :: u.reverse) := by
      rw [List.concat_eq_append, List.reverse_append, List.reverse_cons,
        List.reverse_append, List.reverse_singleton]
      simp
    rw [hrev]
    have ha : a ∈ q.concat a := by simp
    rw [List.dropWhile_cons_of_neg (by simpa using hs a ha)]
    rw [List.takeWhile_cons_of_pos (by simpa using hs a ha)]
    have hq : List.takeWhile (fun c => c ≠ '/') (q.reverse ++ '/' :: u.reverse)
        = q.reverse := by
      rw [List.takeWhile_append_of_pos]
      · rw [List.takeWhile_cons_of_neg (by simp), List.append_nil]
      · intro x hx
        have hxp : x ∈ q.concat a := by
          rw [List.concat_eq_append]
          exact List.mem_append_left _ (List.mem_reverse.mp hx)
        simpa using hs x hxp
    rw [hq]
    rw [show (a :: q.reverse).reverse = q ++ [a] by simp]
    rw [List.concat_eq_append]

/-- For a nonempty all-whitespace candidate, the resolved path's extension is
empty: the candidate becomes the final segment of the resolved path and
contains no dot. -/
theorem resolve_ws_ext (root : List Char) (c : Char) (rest : List Char)
    (hws : ∀ x ∈ c :: rest, jsIsWhitespace x = true) :
    extname (resolvePath root (c :: rest)) = [] := by
  have hnosl : ∀ x ∈ c :: rest, x ≠ '/' := fun x hx => (ws_ne (hws x hx)).1
  have hnodot : ∀ x ∈ c :: rest, x ≠ '.' := fun x hx => (ws_ne (hws x hx)).2
  have habs : isAbsolutePath (c :: rest) = false := by
    unfold isAbsolutePath
    exact decide_eq_false (hnosl c (List.mem_cons_self c rest))
  unfold resolvePath
  dsimp only
  rw [if_neg (by rw [habs]; exact Bool.false_ne_true)]
  rw [splitOnChar_append_cons, splitOnChar_eq_single _ _ hnosl,
    List.foldl_append]
  dsimp only [List.foldl_cons, List.foldl_nil]
  have hstep : normStep ((splitOnChar '/' root).foldl normStep []) (c :: rest)
      = (splitOnChar '/' root).foldl normStep [] ++ [c :: rest] := by
    unfold normStep
    rw [if_neg, if_neg]
    · intro hcon
      have : '.' ∈ c :: rest := by rw [hcon]; simp
      exact hnodot '.' this rfl
    · rintro (hcon | hcon)
      · exact List.cons_ne_nil c rest hcon
      · have : '.' ∈ c :: rest := by rw [hcon]; simp
        exact hnodot '.' this rfl
  rw [hstep]
  have hpne : c :: rest ≠ [] := List.cons_ne_nil c rest
  cases hstack : (splitOnChar '/' root).foldl normStep [] with
  | nil =>
    rw [List.nil_append]
    have : ('/' :: joinSegs [c :: rest]) = [] ++ '/' :: (c :: rest) := by
      simp [joinSegs]
    rw [this, extname_append_seg _ _ hpne hnosl]
    exact extOfBase_eq_nil _ hnodot
  | cons s ss =>
    rw [joinSegs_append_singleton _ _ (List.cons_ne_nil s ss)]
    have : ('/' :: (joinSegs (s :: ss) ++ '/' :: (c :: rest)))
        = ('/' :: joinSegs (s :: ss)) ++ '/' :: (c :: rest) := by
      simp
    rw [this, extname_append_seg _ _ hpne hnosl]
    exact extOfBase_eq_nil _ hnodot

/-- C9 counterexample: the two validators do not reject exactly the same
inputs for every root.  For the root `/repo.png` — a legal working directory
whose own extension is in the allow-list — the wrapper accepts the empty
candidate: it resolves to the root itself, whose extension `.png` passes and
which exists, yielding `./`; the MCP validator rejects the same candidate
through its non-empty-string guard. -/
theorem c9_counterexample :
    resolveSafeImagePath "/repo.png".data ["/repo.png".data] "".data
      = .ok "./".data ∧
    toSafeRepoRelativePath "/repo.png".data ["/repo.png".data] "".data
      = .error .notAString ∧
    resolvePath "/repo.png".data [] = "/repo.png".data :=
  ⟨rfl, rfl, rfl⟩

/-- C9 (amended): on non-blank candidates the two validators return
identical results, so they accept exactly the same non-blank inputs with
equal normalized paths and matching error variants; blank candidates are
rejected by the MCP validator unconditionally, and by the wrapper exactly
when the canonical root's own extension is outside the allow-list (true of
any root not itself named like an allowed image file) — under that root-side
condition the two validators accept exactly the same inputs, blank input
rejected by both. -/
theorem c9_same_validation (root : List Char) (fsExists : List (List Char))
    (p : List Char)
    (hroot : resolvePath root [] = root)
    (hrootExt : (extname root).map Char.toLower ∉ ALLOWED_EXTENSIONS) :
    (jsTrim p ≠ [] →
      toSafeRepoRelativePath root fsExists p
        = resolveSafeImagePath root fsExists p) ∧
    (∀ v, toSafeRepoRelativePath root fsExists p = .ok v ↔
          resolveSafeImagePath root fsExists p = .ok v) := by
  have hsame : jsTrim p ≠ [] →
      toSafeRepoRelativePath root fsExists p
        = resolveSafeImagePath root fsExists p := by
    intro ht
    unfold toSafeRepoRelativePath resolveSafeImagePath
    rw [if_neg ht]
  refine ⟨hsame, ?_⟩
  intro v
  by_cases ht : jsTrim p = []
  · constructor
    · intro h
      unfold toSafeRepoRelativePath at h
      rw [if_pos ht] at h
      exact absurd h (by simp)
    · intro h
      exfalso
      cases p with
      | nil =>
        unfold resolveSafeImagePath at h
        rw [if_neg (by decide)] at h
        dsimp only at h
        rw [hroot] at h
        rw [if_neg (not_not_intro (Or.inl rfl))] at h
        rw [if_pos hrootExt] at h
        exact absurd h (by simp)
      | cons c rest =>
        have hws := jsTrim_eq_nil_imp ht
        have habs : isAbsolutePath (c :: rest) = false := by
          unfold isAbsolutePath
          exact decide_eq_false
            (ws_ne (hws c (List.mem_cons_self c rest))).1
        have hext := resolve_ws_ext root c rest hws
        unfold resolveSafeImagePath at h
        rw [if_neg (by rw [habs]; exact Bool.false_ne_true)] at h
        dsimp only at h
        split at h
        · exact absurd h (by simp)
        · rw [hext] at h
          rw [if_pos (by decide)] at h
          exact absurd h (by simp)
  · rw [hsame ht]

/-- Witness for C9: under root `/repo`, both validators return the same
result on `a.png`, and they agree on acceptance of the blank candidate. -/
theorem c9_same_validation_witness :
    toSafeRepoRelativePath "/repo".data ["/repo/a.png".data] "a.png".data
      = resolveSafeImagePath "/repo".data ["/repo/a.png".data] "a.png".data ∧
    (toSafeRepoRelativePath "/repo".data ["/repo/a.png".data] "".data
        = .ok "./a.png".data ↔
     resolveSafeImagePath "/repo".data ["/repo/a.png".data] "".data
        = .ok "./a.png".data) :=
  ⟨(c9_same_validation "/repo".data ["/repo/a.png".data] "a.png".data rfl
      (by decide)).1 (by decide),
   (c9_same_validation "/repo".data ["/repo/a.png".data] "".data rfl
      (by decide)).2 "./a.png".data⟩

end CodexEyes
